import Mathlib

/-!
# Verification of the sweets inventory backend

A shallow embedding of the catalog / inventory / auth services of the
sweet-shop backend (TypeScript + Prisma + SQLite), together with proofs of
its behavioural contracts.

Modelling conventions:
* the Prisma `sweet` table is a `List Sweet`; `findMany` with
  `orderBy createdAt desc` is insertion sort by descending `createdAt`;
* prices are rationals, quantities are integers, timestamps are naturals;
* every stateful operation takes the store and returns
  `(Except String α) × Store`: a thrown `Error(msg)` is `Except.error msg`
  paired with the unchanged store;
* the bcrypt hash / compare and the JWT generator are external
  collaborators and are passed in as function parameters;
* JavaScript truthiness of `if (criteria.name)` on an optional string is
  modelled explicitly: a `some ""` field behaves like `none`.
-/

/-- A row of the `sweet` table (id, name, category, price, quantity,
creation timestamp). The `updatedAt` column is irrelevant to every claim
and omitted. -/
structure Sweet where
  id : String
  name : String
  category : String
  price : Rat
  quantity : Int
  createdAt : Nat
deriving Repr, DecidableEq

/-- The sweets table. -/
abbrev Store := List Sweet

/-- `orderBy createdAt desc`: `a` comes before `b` when `a` was created no
earlier than `b`. -/
def laterFirst (a b : Sweet) : Prop := b.createdAt ≤ a.createdAt

instance : DecidableRel laterFirst := fun a b => Nat.decLe b.createdAt a.createdAt

instance : IsTotal Sweet laterFirst := ⟨fun a b => Nat.le_total b.createdAt a.createdAt⟩

instance : IsTrans Sweet laterFirst := ⟨fun _ _ _ hab hbc => Nat.le_trans hbc hab⟩

/-- The result order of `prisma.sweet.findMany({orderBy: {createdAt: 'desc'}})`. -/
def sortByCreatedDesc (s : Store) : Store := List.insertionSort laterFirst s

/-- `prisma.sweet.findUnique({where: {id}})`: first row with this id. -/
def SweetRepository.findById (s : Store) (id : String) : Option Sweet :=
  s.find? (fun sw => sw.id == id)

/-- `SweetRepository.existsById`: `findUnique` then compare with `null`. -/
def SweetRepository.existsById (s : Store) (id : String) : Bool :=
  (SweetRepository.findById s id).isSome

/-- `SweetRepository.findAll`: all rows, creation time descending. -/
def SweetRepository.findAll (s : Store) : Store := sortByCreatedDesc s

/-- The four optional search criteria (`name`, `category`, `minPrice`,
`maxPrice`). -/
structure SearchCriteria where
  name : Option String := none
  category : Option String := none
  minPrice : Option Rat := none
  maxPrice : Option Rat := none

/-- Whitespace as matched by the JavaScript regex class `\s`
(ASCII whitespace plus the common Unicode space characters). -/
def isSpaceChar (c : Char) : Bool :=
  c = ' ' || c = '\t' || c = '\n' || c = '\r' || c = '\x0b' || c = '\x0c' ||
  c = ' ' || c = '﻿'

/-- Does the second list start with the first one? -/
def listStartsWith : List Char → List Char → Bool
  | [], _ => true
  | _ :: _, [] => false
  | a :: as, b :: bs => a == b && listStartsWith as bs

/-- Does the second list contain the first one as a contiguous run? -/
def listContainsSeq (needle : List Char) : List Char → Bool
  | [] => listStartsWith needle []
  | c :: rest => listStartsWith needle (c :: rest) || listContainsSeq needle rest

/-- SQLite `LIKE`-style containment: case-insensitive substring test, as
produced by Prisma `contains` on a SQLite column. -/
def containsCI (hay needle : String) : Bool :=
  listContainsSeq (needle.toList.map Char.toLower) (hay.toList.map Char.toLower)

/-- The `where` object built by `SweetRepository.search`, as a row
predicate, one definition per clause.  `if (criteria.name)` and
`if (criteria.category)` are JavaScript truthiness tests, so an empty
string disables the filter just like an absent one.

The `where.name.contains` clause. -/
def nameFilter (c : SearchCriteria) (sw : Sweet) : Bool :=
  match c.name with
  | none => true
  | some n => if n = "" then true else containsCI sw.name n

/-- The `where.category` clause (`if (criteria.category)`: exact match,
skipped when absent or empty). -/
def categoryFilter (c : SearchCriteria) (sw : Sweet) : Bool :=
  match c.category with
  | none => true
  | some cat => if cat = "" then true else sw.category == cat

/-- The `where.price.gte` clause (`!== undefined`, inclusive). -/
def minPriceFilter (c : SearchCriteria) (sw : Sweet) : Bool :=
  match c.minPrice with
  | none => true
  | some p => decide (p ≤ sw.price)

/-- The `where.price.lte` clause (`!== undefined`, inclusive). -/
def maxPriceFilter (c : SearchCriteria) (sw : Sweet) : Bool :=
  match c.maxPrice with
  | none => true
  | some p => decide (sw.price ≤ p)

/-- The whole `where` object: the conjunction of its clauses. -/
def SweetRepository.matchesCriteria (c : SearchCriteria) (sw : Sweet) : Bool :=
  nameFilter c sw && categoryFilter c sw && minPriceFilter c sw &&
    maxPriceFilter c sw

/-- `SweetRepository.search`: `findMany` with the built `where` object and
`orderBy createdAt desc`. -/
def SweetRepository.search (c : SearchCriteria) (s : Store) : Store :=
  sortByCreatedDesc (s.filter (SweetRepository.matchesCriteria c))

/-- Input of `SweetRepository.create`. -/
structure CreateSweetData where
  name : String
  category : String
  price : Rat
  quantity : Int

/-- `prisma.sweet.create`: the caller supplies the server-generated id and
timestamp explicitly here. -/
def SweetRepository.create (s : Store) (d : CreateSweetData) (newId : String)
    (now : Nat) : Sweet × Store :=
  let sw : Sweet := { id := newId, name := d.name, category := d.category,
                      price := d.price, quantity := d.quantity, createdAt := now }
  (sw, s ++ [sw])

/-- Partial-update object of `SweetRepository.update`: absent fields keep
their stored value. -/
structure UpdateSweetData where
  name : Option String := none
  category : Option String := none
  price : Option Rat := none
  quantity : Option Int := none

/-- Merging a partial update into a stored row. -/
def applyUpdate (sw : Sweet) (d : UpdateSweetData) : Sweet :=
  { sw with
    name := d.name.getD sw.name
    category := d.category.getD sw.category
    price := d.price.getD sw.price
    quantity := d.quantity.getD sw.quantity }

/-- `prisma.sweet.update({where: {id}, data})`: throws (Prisma P2025) when
no row has the id. -/
def SweetRepository.update (s : Store) (id : String) (d : UpdateSweetData) :
    (Except String Sweet) × Store :=
  match SweetRepository.findById s id with
  | none => (Except.error "Record to update not found", s)
  | some sw =>
    let sw2 := applyUpdate sw d
    (Except.ok sw2, s.map (fun x => if x.id == id then sw2 else x))

/-- `prisma.sweet.delete({where: {id}})`. -/
def SweetRepository.deleteById (s : Store) (id : String) :
    (Except String Unit) × Store :=
  if SweetRepository.existsById s id then
    (Except.ok (), s.filter (fun x => !(x.id == id)))
  else (Except.error "Record to delete does not exist", s)

/-- `SweetRepository.decrementQuantity`: the unguarded atomic
`quantity: {decrement: 1}` update. -/
def SweetRepository.decrementQuantity (s : Store) (id : String) :
    (Except String Sweet) × Store :=
  match SweetRepository.findById s id with
  | none => (Except.error "Record to update not found", s)
  | some sw =>
    let sw2 := { sw with quantity := sw.quantity - 1 }
    (Except.ok sw2, s.map (fun x => if x.id == id then sw2 else x))

/-- `SweetRepository.incrementQuantity`: the atomic
`quantity: {increment: amount}` update. -/
def SweetRepository.incrementQuantity (s : Store) (id : String) (amount : Int) :
    (Except String Sweet) × Store :=
  match SweetRepository.findById s id with
  | none => (Except.error "Record to update not found", s)
  | some sw =>
    let sw2 := { sw with quantity := sw.quantity + amount }
    (Except.ok sw2, s.map (fun x => if x.id == id then sw2 else x))

/-- `InventoryService.purchaseSweet`: fetch, fail `Sweet not found` when
absent, fail `Sweet is out of stock` when `quantity <= 0`, otherwise
decrement. -/
def InventoryService.purchaseSweet (s : Store) (id : String) :
    (Except String Sweet) × Store :=
  match SweetRepository.findById s id with
  | none => (Except.error "Sweet not found", s)
  | some sw =>
    if sw.quantity ≤ 0 then (Except.error "Sweet is out of stock", s)
    else SweetRepository.decrementQuantity s id

/-- `InventoryService.restockSweet`: positivity check first, then existence
check, then increment. -/
def InventoryService.restockSweet (s : Store) (id : String) (quantity : Int) :
    (Except String Sweet) × Store :=
  if quantity ≤ 0 then
    (Except.error "Restock quantity must be a positive number", s)
  else if SweetRepository.existsById s id then
    SweetRepository.incrementQuantity s id quantity
  else (Except.error "Sweet not found", s)

/-- `SweetService.createSweet`: price must be positive, quantity
non-negative, then delegate to the repository. -/
def SweetService.createSweet (s : Store) (d : CreateSweetData) (newId : String)
    (now : Nat) : (Except String Sweet) × Store :=
  if d.price ≤ 0 then (Except.error "Price must be a positive number", s)
  else if d.quantity < 0 then
    (Except.error "Quantity must be a non-negative number", s)
  else
    let r := SweetRepository.create s d newId now
    (Except.ok r.1, r.2)

/-- `if (data.price !== undefined && data.price <= 0)`. -/
def UpdateSweetData.priceBad (d : UpdateSweetData) : Bool :=
  match d.price with
  | none => false
  | some p => decide (p ≤ 0)

/-- `if (data.quantity !== undefined && data.quantity < 0)`. -/
def UpdateSweetData.quantityBad (d : UpdateSweetData) : Bool :=
  match d.quantity with
  | none => false
  | some q => decide (q < 0)

/-- `SweetService.updateSweet`: existence pre-check, then field
validation, then repository update. -/
def SweetService.updateSweet (s : Store) (id : String) (d : UpdateSweetData) :
    (Except String Sweet) × Store :=
  if SweetRepository.existsById s id then
    if d.priceBad then (Except.error "Price must be a positive number", s)
    else if d.quantityBad then
      (Except.error "Quantity must be a non-negative number", s)
    else SweetRepository.update s id d
  else (Except.error "Sweet not found", s)

/-- `SweetService.deleteSweet`: existence pre-check, then repository
delete. -/
def SweetService.deleteSweet (s : Store) (id : String) :
    (Except String Unit) × Store :=
  if SweetRepository.existsById s id then SweetRepository.deleteById s id
  else (Except.error "Sweet not found", s)

/-- A row of the `user` table. -/
structure User where
  id : String
  email : String
  passwordHash : String
  role : String
deriving Repr, DecidableEq

/-- The users table. -/
abbrev UserStore := List User

/-- `prisma.user.findUnique({where: {email}})` (case-sensitive exact
match). -/
def UserRepository.findByEmail (s : UserStore) (email : String) : Option User :=
  s.find? (fun u => u.email == email)

/-- Splits a list at the first occurrence of `c`; `none` when `c` is
absent. -/
def splitAtChar (c : Char) : List Char → Option (List Char × List Char)
  | [] => none
  | x :: xs =>
    if x == c then some ([], xs)
    else
      match splitAtChar c xs with
      | none => none
      | some (l, r) => some (x :: l, r)

/-- A character allowed by the regex class `[^\s@]`. -/
def okChar (c : Char) : Bool := !(isSpaceChar c) && c != '@'

/-- `l = b ++ '.' :: c` for some non-empty `b` and `c`: a dot that is
neither the first nor the last character. -/
def hasInnerDot : List Char → Bool
  | [] => false
  | [_] => false
  | _ :: y :: rest => (y == '.' && !rest.isEmpty) || hasInnerDot (y :: rest)

/-- `AuthService.isValidEmail`: the test
`/^[^\s@]+@[^\s@]+\.[^\s@]+$/.test(email)`.  The string must decompose as
`A@B.C` with `A`, `B`, `C` non-empty runs of characters that are neither
whitespace nor `'@'`; since `A` cannot contain `'@'`, the separator is the
first `'@'` of the string. -/
def AuthService.isValidEmail (email : String) : Bool :=
  match splitAtChar '@' email.toList with
  | none => false
  | some (loc, rest) =>
    !loc.isEmpty && loc.all okChar && rest.all okChar && hasInnerDot rest

/-- `AuthService.registerUser`: email shape, password length, uniqueness,
hash, persist.  `hash` models `PasswordService.hashPassword` and `newId`
the server-generated id. -/
def AuthService.registerUser (hash : String → String) (newId : String)
    (s : UserStore) (email pw : String) : (Except String User) × UserStore :=
  if !(AuthService.isValidEmail email) then
    (Except.error "Invalid email format", s)
  else if pw.length < 8 then
    (Except.error "Password must be at least 8 characters long", s)
  else
    match UserRepository.findByEmail s email with
    | some _ => (Except.error "Email already registered", s)
    | none =>
      let u : User := { id := newId, email := email, passwordHash := hash pw,
                        role := "user" }
      (Except.ok u, s ++ [u])

deriving instance DecidableEq for Except

/-- The success payload of `AuthService.loginUser` (token plus the public
user fields). -/
structure AuthResponse where
  token : String
  userId : String
  userEmail : String
  userRole : String
deriving Repr, DecidableEq

/-- `AuthService.loginUser`: lookup by email, compare the password against
the stored hash, issue a token.  `cmp` models
`PasswordService.comparePassword` and `genToken` models
`TokenService.generateToken`. -/
def AuthService.loginUser (cmp : String → String → Bool)
    (genToken : String → String → String) (s : UserStore) (email pw : String) :
    Except String AuthResponse :=
  match UserRepository.findByEmail s email with
  | none => Except.error "Invalid credentials"
  | some user =>
    if cmp pw user.passwordHash then
      Except.ok { token := genToken user.id user.role, userId := user.id,
                  userEmail := user.email, userRole := user.role }
    else Except.error "Invalid credentials"

/-! ## Specification-side definitions

These follow the wording of the specification (not the code); the theorems
below compare the code against them. -/

/-- Spec wording of the email shape accepted by registration: "at least
one `@`, no whitespace, a dot in the domain part" (the domain part being
what follows the first `@`). -/
def claimEmailShape (email : String) : Bool :=
  let cs := email.toList
  cs.contains '@' && cs.all (fun c => !(isSpaceChar c)) &&
  (match splitAtChar '@' cs with
   | none => false
   | some (_, rest) => rest.contains '.')

/-- The email shape the code actually enforces
(`/^[^\s@]+@[^\s@]+\.[^\s@]+$/`): a non-empty local part, then `'@'`, then
a domain containing a dot that is neither its first nor its last
character, with no whitespace or further `'@'` anywhere. -/
def emailShapeOk (email : String) : Prop :=
  ∃ l b c : List Char,
    email.toList = l ++ '@' :: (b ++ '.' :: c) ∧ l ≠ [] ∧ b ≠ [] ∧ c ≠ [] ∧
    (∀ ch ∈ l, okChar ch = true) ∧ (∀ ch ∈ b, okChar ch = true) ∧
    (∀ ch ∈ c, okChar ch = true)

/-- Spec wording of the name criterion: case-insensitive substring match,
true for all rows when absent. -/
def specNameMatches (c : SearchCriteria) (sw : Sweet) : Prop :=
  ∀ n, c.name = some n →
    ∃ p t, sw.name.toList.map Char.toLower =
      p ++ ((n.toList.map Char.toLower) ++ t)

/-- Category criterion as the code applies it: exact match, true for all
rows when absent or empty (JavaScript truthiness). -/
def specCategoryMatches (c : SearchCriteria) (sw : Sweet) : Prop :=
  ∀ cat, c.category = some cat → cat = "" ∨ sw.category = cat

/-- Spec wording of the inclusive lower price bound. -/
def specMinMatches (c : SearchCriteria) (sw : Sweet) : Prop :=
  ∀ p, c.minPrice = some p → p ≤ sw.price

/-- Spec wording of the inclusive upper price bound. -/
def specMaxMatches (c : SearchCriteria) (sw : Sweet) : Prop :=
  ∀ p, c.maxPrice = some p → sw.price ≤ p

/-- Invariant on a single row: non-negative stock, positive price. -/
def goodSweet (sw : Sweet) : Prop := 0 ≤ sw.quantity ∧ 0 < sw.price

instance (sw : Sweet) : Decidable (goodSweet sw) :=
  inferInstanceAs (Decidable (_ ∧ _))

/-- Invariant on the whole table. -/
def GoodStore (s : Store) : Prop := ∀ sw ∈ s, goodSweet sw

instance (s : Store) : Decidable (GoodStore s) :=
  inferInstanceAs (Decidable (∀ sw ∈ s, goodSweet sw))

/-! ## Demonstration values -/

/-- A stocked row used to instantiate the theorems. -/
def truffle : Sweet :=
  { id := "s1", name := "Dark Chocolate Truffle", category := "Chocolate",
    price := 2, quantity := 5, createdAt := 1 }

/-- A row with zero stock. -/
def staleCandy : Sweet :=
  { id := "s0", name := "Stale Candy", category := "Candy",
    price := 1, quantity := 0, createdAt := 3 }

/-! ## Helper lemmas -/

theorem listStartsWith_iff (n h : List Char) :
    listStartsWith n h = true ↔ ∃ t, h = n ++ t := by
  induction n generalizing h with
  | nil => simp [listStartsWith]
  | cons a as ih =>
    cases h with
    | nil =>
      simp only [listStartsWith, Bool.false_eq_true, false_iff]
      rintro ⟨t, ht⟩
      exact List.cons_ne_nil _ _ ht.symm
    | cons b bs =>
      simp only [listStartsWith, Bool.and_eq_true, beq_iff_eq, ih,
        List.cons_append]
      constructor
      · rintro ⟨rfl, t, rfl⟩
        exact ⟨t, rfl⟩
      · rintro ⟨t, ht⟩
        injection ht with h1 h2
        exact ⟨h1.symm, t, h2⟩

theorem listContainsSeq_iff (n h : List Char) :
    listContainsSeq n h = true ↔ ∃ p t, h = p ++ (n ++ t) := by
  induction h with
  | nil =>
    simp only [listContainsSeq, listStartsWith_iff]
    constructor
    · rintro ⟨t, ht⟩
      exact ⟨[], t, by simpa using ht⟩
    · rintro ⟨p, t, ht⟩
      have hp := (List.append_eq_nil.mp ht.symm).1
      have hn := (List.append_eq_nil.mp ht.symm).2
      exact ⟨t, by simpa [hp] using ht⟩
  | cons c rest ih =>
    simp only [listContainsSeq, Bool.or_eq_true, listStartsWith_iff, ih]
    constructor
    · rintro (⟨t, ht⟩ | ⟨p, t, ht⟩)
      · exact ⟨[], t, by simpa using ht⟩
      · exact ⟨c :: p, t, by simp [ht]⟩
    · rintro ⟨p, t, ht⟩
      cases p with
      | nil => exact Or.inl ⟨t, by simpa using ht⟩
      | cons x p' =>
        rw [List.cons_append] at ht
        injection ht with h1 h2
        exact Or.inr ⟨p', t, h2⟩

theorem splitAtChar_some (c : Char) (l : List Char) :
    ∀ a b, splitAtChar c l = some (a, b) → l = a ++ c :: b ∧ c ∉ a := by
  induction l with
  | nil => intro a b h; simp [splitAtChar] at h
  | cons x xs ih =>
    intro a b h
    rw [splitAtChar] at h
    by_cases hx : (x == c) = true
    · rw [if_pos hx] at h
      have hxc : x = c := by simpa using hx
      injection h with h'
      have ha : ([] : List Char) = a := congrArg Prod.fst h'
      have hb : xs = b := congrArg Prod.snd h'
      subst ha; subst hb
      simp [hxc]
    · rw [if_neg hx] at h
      cases hsp : splitAtChar c xs with
      | none => rw [hsp] at h; simp at h
      | some p =>
        obtain ⟨l', r'⟩ := p
        rw [hsp] at h
        injection h with h'
        have ha : a = x :: l' := (congrArg Prod.fst h').symm
        have hb : b = r' := (congrArg Prod.snd h').symm
        rw [ha, hb]
        obtain ⟨he, hn⟩ := ih l' r' hsp
        constructor
        · rw [List.cons_append, ← he]
        · intro hmem
          rcases List.mem_cons.mp hmem with hh | hh
          · exact (show ¬(x = c) by simpa using hx) hh.symm
          · exact hn hh

theorem splitAtChar_append (c : Char) (a b : List Char) (ha : c ∉ a) :
    splitAtChar c (a ++ c :: b) = some (a, b) := by
  induction a with
  | nil => simp [splitAtChar]
  | cons x xs ih =>
    have hxc : ¬((x == c) = true) := by
      simp only [beq_iff_eq]
      intro hh
      exact ha (by rw [← hh]; exact List.mem_cons_self x xs)
    have ha' : c ∉ xs := fun hm => ha (List.mem_cons_of_mem x hm)
    rw [List.cons_append, splitAtChar, if_neg hxc, ih ha']


theorem ne_nil_of_not_isEmpty {α : Type} {l : List α} (h : (!l.isEmpty) = true) :
    l ≠ [] := by
  cases l with
  | nil => exact absurd h Bool.false_ne_true
  | cons x xs => exact List.cons_ne_nil x xs

theorem not_isEmpty_of_ne_nil {α : Type} {l : List α} (h : l ≠ []) :
    (!l.isEmpty) = true := by
  cases l with
  | nil => exact absurd rfl h
  | cons x xs => rfl

theorem hasInnerDot_iff (l : List Char) :
    hasInnerDot l = true ↔ ∃ b c, l = b ++ '.' :: c ∧ b ≠ [] ∧ c ≠ [] := by
  induction l with
  | nil =>
    simp only [hasInnerDot, Bool.false_eq_true, false_iff]
    rintro ⟨b, c, heq, hb, hc⟩
    exact hb (List.append_eq_nil.mp heq.symm).1
  | cons x ys ih =>
    cases ys with
    | nil =>
      simp only [hasInnerDot, Bool.false_eq_true, false_iff]
      rintro ⟨b, c, heq, hb, hc⟩
      cases b with
      | nil => exact hb rfl
      | cons x0 b' =>
        rw [List.cons_append] at heq
        injection heq with h1 h2
        exact absurd (List.append_eq_nil.mp h2.symm).2 (List.cons_ne_nil _ _)
    | cons y rest =>
      simp only [hasInnerDot, Bool.or_eq_true, Bool.and_eq_true, beq_iff_eq, ih]
      constructor
      · rintro (⟨rfl, hrest⟩ | ⟨b, c, heq, hb, hc⟩)
        · exact ⟨[x], rest, rfl, List.cons_ne_nil _ _, ne_nil_of_not_isEmpty hrest⟩
        · exact ⟨x :: b, c, by rw [List.cons_append, heq],
            List.cons_ne_nil _ _, hc⟩
      · rintro ⟨b, c, heq, hb, hc⟩
        cases b with
        | nil => exact absurd rfl hb
        | cons x0 b' =>
          rw [List.cons_append] at heq
          injection heq with h1 h2
          cases b' with
          | nil =>
            injection h2 with h3 h4
            refine Or.inl ⟨h3, ?_⟩
            rw [← h4] at hc
            exact not_isEmpty_of_ne_nil hc
          | cons x1 b'' =>
            exact Or.inr ⟨x1 :: b'', c, h2, List.cons_ne_nil _ _, hc⟩

theorem okChar_at : okChar '@' = false := rfl

theorem okChar_dot : okChar '.' = true := rfl

theorem not_at_of_okChar {l : List Char} (h : ∀ ch ∈ l, okChar ch = true) :
    '@' ∉ l := fun hm => by
  have := h '@' hm
  rw [okChar_at] at this
  exact Bool.false_ne_true this

theorem isValidEmail_iff (email : String) :
    AuthService.isValidEmail email = true ↔ emailShapeOk email := by
  constructor
  · intro h
    rw [AuthService.isValidEmail] at h
    cases hsp : splitAtChar '@' email.toList with
    | none => rw [hsp] at h; exact absurd h (by simp)
    | some p =>
      obtain ⟨loc, rest⟩ := p
      rw [hsp] at h
      simp only [Bool.and_eq_true, List.all_eq_true] at h
      obtain ⟨⟨⟨hne, hloc⟩, hrest⟩, hdot⟩ := h
      obtain ⟨b, c, hbc, hb, hc⟩ := hasInnerDot_iff rest |>.mp hdot
      obtain ⟨heq, -⟩ := splitAtChar_some '@' email.toList loc rest hsp
      refine ⟨loc, b, c, by rw [heq, hbc], ?_, hb, hc, hloc, ?_, ?_⟩
      · exact ne_nil_of_not_isEmpty hne
      · intro ch hch
        exact hrest ch (hbc ▸ List.mem_append_left _ hch)
      · intro ch hch
        exact hrest ch (hbc ▸ List.mem_append_right _ (List.mem_cons_of_mem _ hch))
  · rintro ⟨l, b, c, heq, hl, hb, hc, hlo, hbo, hco⟩
    have hsp : splitAtChar '@' email.toList = some (l, b ++ '.' :: c) := by
      rw [heq]
      exact splitAtChar_append '@' l (b ++ '.' :: c) (not_at_of_okChar hlo)
    rw [AuthService.isValidEmail, hsp]
    simp only [Bool.and_eq_true, List.all_eq_true]
    refine ⟨⟨⟨?_, hlo⟩, ?_⟩, ?_⟩
    · exact not_isEmpty_of_ne_nil hl
    · intro ch hch
      rcases List.mem_append.mp hch with hch | hch
      · exact hbo ch hch
      · rcases List.mem_cons.mp hch with rfl | hch
        · exact okChar_dot
        · exact hco ch hch
    · exact (hasInnerDot_iff _).mpr ⟨b, c, rfl, hb, hc⟩

theorem findById_cons (x : Sweet) (xs : Store) (id : String) :
    SweetRepository.findById (x :: xs) id =
      if (x.id == id) = true then some x else SweetRepository.findById xs id := by
  unfold SweetRepository.findById
  rw [List.find?_cons]
  rcases Bool.eq_false_or_eq_true (x.id == id) with hb | hb
  · rw [hb]
    simp
  · rw [hb]
    simp

theorem findById_mem {s : Store} {id : String} {sw : Sweet}
    (h : SweetRepository.findById s id = some sw) : sw ∈ s ∧ (sw.id == id) = true := by
  unfold SweetRepository.findById at h
  refine ⟨List.mem_of_find?_eq_some h, ?_⟩
  have := List.find?_some h
  simpa using this

theorem findById_map_set {s : Store} {id : String} {sw : Sweet} (sw2 : Sweet)
    (h : SweetRepository.findById s id = some sw) (h2 : sw2.id = sw.id) :
    SweetRepository.findById (s.map (fun x => if x.id == id then sw2 else x)) id =
      some sw2 := by
  induction s with
  | nil => simp [SweetRepository.findById] at h
  | cons x xs ih =>
    rw [findById_cons] at h
    rw [List.map_cons]
    by_cases hx : (x.id == id) = true
    · rw [if_pos hx] at h
      injection h with h
      rw [if_pos hx, findById_cons]
      have hsw2 : (sw2.id == id) = true := by
        rw [h2, ← h]; exact hx
      rw [if_pos hsw2]
    · rw [if_neg hx] at h
      rw [if_neg hx, findById_cons, if_neg hx]
      exact ih h

theorem goodStore_map_set {s : Store} (h : GoodStore s) {id : String} {sw2 : Sweet}
    (h2 : goodSweet sw2) :
    GoodStore (s.map (fun x => if x.id == id then sw2 else x)) := by
  intro sw hsw
  rcases List.mem_map.mp hsw with ⟨x, hx, hfx⟩
  by_cases hxi : (x.id == id) = true
  · rw [if_pos hxi] at hfx
    exact hfx ▸ h2
  · rw [if_neg hxi] at hfx
    exact hfx ▸ h x hx

theorem goodStore_append {s : Store} (h : GoodStore s) {sw : Sweet}
    (h2 : goodSweet sw) : GoodStore (s ++ [sw]) := by
  intro x hx
  rcases List.mem_append.mp hx with hx | hx
  · exact h x hx
  · rcases List.mem_singleton.mp hx with rfl
    exact h2

theorem goodStore_filter {s : Store} (h : GoodStore s) (p : Sweet → Bool) :
    GoodStore (s.filter p) := fun x hx => h x (List.mem_filter.mp hx).1

theorem nameFilter_iff (c : SearchCriteria) (sw : Sweet) :
    nameFilter c sw = true ↔ specNameMatches c sw := by
  unfold nameFilter specNameMatches
  cases hn : c.name with
  | none => simp
  | some n =>
    dsimp only
    by_cases hne : n = ""
    · subst hne
      rw [if_pos rfl]
      simp only [true_iff, Option.some.injEq]
      rintro m rfl
      exact ⟨[], sw.name.toList.map Char.toLower, by simp⟩
    · rw [if_neg hne]
      constructor
      · rintro h m hm
        injection hm with hm
        subst hm
        exact (listContainsSeq_iff _ _).mp h
      · intro h
        exact (listContainsSeq_iff _ _).mpr (h n rfl)

theorem categoryFilter_iff (c : SearchCriteria) (sw : Sweet) :
    categoryFilter c sw = true ↔ specCategoryMatches c sw := by
  unfold categoryFilter specCategoryMatches
  cases hn : c.category with
  | none => simp
  | some cat =>
    dsimp only
    by_cases hne : cat = ""
    · subst hne
      rw [if_pos rfl]
      simp only [true_iff, Option.some.injEq]
      rintro m rfl
      exact Or.inl rfl
    · rw [if_neg hne]
      constructor
      · rintro h m hm
        injection hm with hm
        subst hm
        exact Or.inr (by simpa using h)
      · intro h
        rcases h cat rfl with h | h
        · exact absurd h hne
        · simpa using h

theorem minPriceFilter_iff (c : SearchCriteria) (sw : Sweet) :
    minPriceFilter c sw = true ↔ specMinMatches c sw := by
  unfold minPriceFilter specMinMatches
  cases hn : c.minPrice with
  | none => simp
  | some p =>
    simp only [decide_eq_true_eq, Option.some.injEq]
    constructor
    · rintro h m rfl
      exact h
    · intro h
      exact h p rfl

theorem maxPriceFilter_iff (c : SearchCriteria) (sw : Sweet) :
    maxPriceFilter c sw = true ↔ specMaxMatches c sw := by
  unfold maxPriceFilter specMaxMatches
  cases hn : c.maxPrice with
  | none => simp
  | some p =>
    simp only [decide_eq_true_eq, Option.some.injEq]
    constructor
    · rintro h m rfl
      exact h
    · intro h
      exact h p rfl

theorem matchesCriteria_iff (c : SearchCriteria) (sw : Sweet) :
    SweetRepository.matchesCriteria c sw = true ↔
      specNameMatches c sw ∧ specCategoryMatches c sw ∧
      specMinMatches c sw ∧ specMaxMatches c sw := by
  unfold SweetRepository.matchesCriteria
  simp only [Bool.and_eq_true, nameFilter_iff, categoryFilter_iff,
    minPriceFilter_iff, maxPriceFilter_iff]
  tauto

/-! ## Claim theorems -/

/-- C5: `search` with empty criteria returns the very same sequence as
`findAll`, in the same creation-time-descending order. -/
theorem search_empty_eq_findAll (s : Store) :
    SweetRepository.search {} s = SweetRepository.findAll s := by
  unfold SweetRepository.search SweetRepository.findAll
  have hfil : List.filter (SweetRepository.matchesCriteria {}) s = s :=
    List.filter_eq_self.mpr (fun a _ => rfl)
  rw [hfil]

/-- C4 (amended): `search` returns exactly the stored Sweets satisfying
the conjunction of the provided predicates — name a case-insensitive
substring match, category an exact match (true for all when absent or
empty, by JavaScript truthiness), minPrice/maxPrice inclusive bounds —
ordered by creation time descending. -/
theorem search_exact_matches (c : SearchCriteria) (s : Store) :
    (∀ x, x ∈ SweetRepository.search c s ↔
      x ∈ s ∧ specNameMatches c x ∧ specCategoryMatches c x ∧
        specMinMatches c x ∧ specMaxMatches c x) ∧
    (SweetRepository.search c s).Pairwise laterFirst := by
  constructor
  · intro x
    unfold SweetRepository.search sortByCreatedDesc
    rw [List.mem_insertionSort, List.mem_filter, matchesCriteria_iff]
  · exact List.sorted_insertionSort laterFirst _

/-- C4 counterexample: with the provided criterion `category = ""`, the
code skips the category filter entirely (JavaScript truthiness), so a
Sweet whose category is not `""` is still returned, violating the
claimed exact match for every provided category. -/
theorem search_category_truthiness_cex :
    truffle.category ≠ "" ∧
    truffle ∈ SweetRepository.search { category := some "" } [truffle] := by
  constructor
  · decide
  · decide

/-- C10: a non-positive restock amount is rejected with the
invalid-quantity error before the store is consulted: the result is the
same for every store, in particular for ids with no stored Sweet, and is
never the not-found error. -/
theorem restock_checks_amount_first (s : Store) (id : String) (amount : Int)
    (h : amount ≤ 0) :
    InventoryService.restockSweet s id amount =
      (Except.error "Restock quantity must be a positive number", s) := by
  unfold InventoryService.restockSweet
  rw [if_pos h]

theorem restock_checks_amount_first_witness :
    (0 : Int) ≤ 0 ∧
    InventoryService.restockSweet [] "ghost" 0 =
      (Except.error "Restock quantity must be a positive number", []) :=
  ⟨le_refl 0, restock_checks_amount_first [] "ghost" 0 (le_refl 0)⟩

/-- C1: purchase of a stored Sweet with positive quantity returns it with
quantity decremented by one (and stores that value); with quantity ≤ 0 it
fails out-of-stock leaving the store unchanged; with an absent id it
fails not-found. -/
theorem purchase_contract (s : Store) (id : String) :
    (∀ sw, SweetRepository.findById s id = some sw → 0 < sw.quantity →
      InventoryService.purchaseSweet s id =
        (Except.ok { sw with quantity := sw.quantity - 1 },
          s.map (fun x =>
            if x.id == id then { sw with quantity := sw.quantity - 1 } else x)) ∧
      SweetRepository.findById (InventoryService.purchaseSweet s id).2 id =
        some { sw with quantity := sw.quantity - 1 }) ∧
    (∀ sw, SweetRepository.findById s id = some sw → sw.quantity ≤ 0 →
      InventoryService.purchaseSweet s id =
        (Except.error "Sweet is out of stock", s)) ∧
    (SweetRepository.findById s id = none →
      InventoryService.purchaseSweet s id =
        (Except.error "Sweet not found", s)) := by
  refine ⟨?_, ?_, ?_⟩
  · intro sw hf hq
    have hpe : InventoryService.purchaseSweet s id =
        (Except.ok { sw with quantity := sw.quantity - 1 },
          s.map (fun x =>
            if x.id == id then { sw with quantity := sw.quantity - 1 } else x)) := by
      unfold InventoryService.purchaseSweet
      rw [hf]
      dsimp only
      rw [if_neg (by omega)]
      unfold SweetRepository.decrementQuantity
      rw [hf]
    refine ⟨hpe, ?_⟩
    rw [hpe]
    exact findById_map_set _ hf rfl
  · intro sw hf hq
    unfold InventoryService.purchaseSweet
    rw [hf]
    dsimp only
    rw [if_pos hq]
  · intro hf
    unfold InventoryService.purchaseSweet
    rw [hf]

theorem purchase_contract_witness :
    SweetRepository.findById [truffle] "s1" = some truffle ∧
    0 < truffle.quantity ∧
    (InventoryService.purchaseSweet [truffle] "s1" =
      (Except.ok { truffle with quantity := truffle.quantity - 1 },
        [truffle].map (fun x =>
          if x.id == "s1" then { truffle with quantity := truffle.quantity - 1 }
          else x)) ∧
      SweetRepository.findById (InventoryService.purchaseSweet [truffle] "s1").2
          "s1" =
        some { truffle with quantity := truffle.quantity - 1 }) :=
  ⟨by decide, by decide,
   (purchase_contract [truffle] "s1").1 truffle (by decide) (by decide)⟩

/-- C2: restock of a stored Sweet with a positive amount returns it with
quantity increased by that amount (and stores that value); a non-positive
amount fails invalid-quantity leaving the store unchanged; a positive
amount on an absent id fails not-found. -/
theorem restock_contract (s : Store) (id : String) (amount : Int) :
    (∀ sw, SweetRepository.findById s id = some sw → 0 < amount →
      InventoryService.restockSweet s id amount =
        (Except.ok { sw with quantity := sw.quantity + amount },
          s.map (fun x =>
            if x.id == id then { sw with quantity := sw.quantity + amount }
            else x)) ∧
      SweetRepository.findById (InventoryService.restockSweet s id amount).2 id =
        some { sw with quantity := sw.quantity + amount }) ∧
    (amount ≤ 0 →
      InventoryService.restockSweet s id amount =
        (Except.error "Restock quantity must be a positive number", s)) ∧
    (0 < amount → SweetRepository.findById s id = none →
      InventoryService.restockSweet s id amount =
        (Except.error "Sweet not found", s)) := by
  refine ⟨?_, ?_, ?_⟩
  · intro sw hf ha
    have hre : InventoryService.restockSweet s id amount =
        (Except.ok { sw with quantity := sw.quantity + amount },
          s.map (fun x =>
            if x.id == id then { sw with quantity := sw.quantity + amount }
            else x)) := by
      unfold InventoryService.restockSweet
      rw [if_neg (by omega)]
      rw [if_pos (show SweetRepository.existsById s id = true by
        unfold SweetRepository.existsById
        rw [hf]
        rfl)]
      unfold SweetRepository.incrementQuantity
      rw [hf]
    refine ⟨hre, ?_⟩
    rw [hre]
    exact findById_map_set _ hf rfl
  · intro ha
    unfold InventoryService.restockSweet
    rw [if_pos ha]
  · intro ha hf
    unfold InventoryService.restockSweet
    rw [if_neg (by omega)]
    rw [if_neg (show ¬ SweetRepository.existsById s id = true by
      unfold SweetRepository.existsById
      rw [hf]
      exact Bool.false_ne_true)]

theorem restock_contract_witness :
    SweetRepository.findById [truffle] "s1" = some truffle ∧
    (0 : Int) < 7 ∧
    (InventoryService.restockSweet [truffle] "s1" 7 =
      (Except.ok { truffle with quantity := truffle.quantity + 7 },
        [truffle].map (fun x =>
          if x.id == "s1" then { truffle with quantity := truffle.quantity + 7 }
          else x)) ∧
      SweetRepository.findById
          (InventoryService.restockSweet [truffle] "s1" 7).2 "s1" =
        some { truffle with quantity := truffle.quantity + 7 }) :=
  ⟨by decide, by decide,
   (restock_contract [truffle] "s1" 7).1 truffle (by decide) (by decide)⟩

theorem createSweet_good (s : Store) (h : GoodStore s) (d : CreateSweetData)
    (newId : String) (now : Nat) :
    GoodStore (SweetService.createSweet s d newId now).2 := by
  unfold SweetService.createSweet
  by_cases hp : d.price ≤ 0
  · rw [if_pos hp]
    exact h
  · rw [if_neg hp]
    by_cases hq : d.quantity < 0
    · rw [if_pos hq]
      exact h
    · rw [if_neg hq]
      unfold SweetRepository.create
      dsimp only
      exact goodStore_append h ⟨by dsimp only; omega, not_le.mp hp⟩

theorem updateSweet_good (s : Store) (h : GoodStore s) (id : String)
    (d : UpdateSweetData) : GoodStore (SweetService.updateSweet s id d).2 := by
  unfold SweetService.updateSweet
  by_cases he : SweetRepository.existsById s id = true
  · rw [if_pos he]
    by_cases hp : d.priceBad = true
    · rw [if_pos hp]
      exact h
    · rw [if_neg hp]
      by_cases hq : d.quantityBad = true
      · rw [if_pos hq]
        exact h
      · rw [if_neg hq]
        unfold SweetRepository.update
        cases hf : SweetRepository.findById s id with
        | none => exact h
        | some sw =>
          dsimp only
          have hsw := h sw (findById_mem hf).1
          refine goodStore_map_set h ⟨?_, ?_⟩
          · unfold applyUpdate
            cases hqd : d.quantity with
            | none => simpa using hsw.1
            | some q =>
              unfold UpdateSweetData.quantityBad at hq
              rw [hqd] at hq
              simp only [decide_eq_true_eq] at hq
              simpa using by omega
          · unfold applyUpdate
            cases hpd : d.price with
            | none => simpa using hsw.2
            | some p =>
              unfold UpdateSweetData.priceBad at hp
              rw [hpd] at hp
              simp only [decide_eq_true_eq] at hp
              simpa using not_le.mp hp
  · rw [if_neg he]
    exact h

theorem purchaseSweet_good (s : Store) (h : GoodStore s) (id : String) :
    GoodStore (InventoryService.purchaseSweet s id).2 := by
  unfold InventoryService.purchaseSweet
  cases hf : SweetRepository.findById s id with
  | none => exact h
  | some sw =>
    dsimp only
    by_cases hq : sw.quantity ≤ 0
    · rw [if_pos hq]
      exact h
    · rw [if_neg hq]
      unfold SweetRepository.decrementQuantity
      rw [hf]
      dsimp only
      exact goodStore_map_set h ⟨by dsimp only; omega, (h sw (findById_mem hf).1).2⟩

theorem restockSweet_good (s : Store) (h : GoodStore s) (id : String)
    (amount : Int) : GoodStore (InventoryService.restockSweet s id amount).2 := by
  unfold InventoryService.restockSweet
  by_cases ha : amount ≤ 0
  · rw [if_pos ha]
    exact h
  · rw [if_neg ha]
    by_cases he : SweetRepository.existsById s id = true
    · rw [if_pos he]
      unfold SweetRepository.incrementQuantity
      cases hf : SweetRepository.findById s id with
      | none => exact h
      | some sw =>
        dsimp only
        have hsw := h sw (findById_mem hf).1
        refine goodStore_map_set h ⟨?_, hsw.2⟩
        have := hsw.1
        dsimp only
        omega
    · rw [if_neg he]
      exact h

theorem deleteSweet_good (s : Store) (h : GoodStore s) (id : String) :
    GoodStore (SweetService.deleteSweet s id).2 := by
  unfold SweetService.deleteSweet SweetRepository.deleteById
  by_cases he : SweetRepository.existsById s id = true
  · rw [if_pos he, if_pos he]
    exact goodStore_filter h _
  · rw [if_neg he]
    exact h

/-- C3: on a store in which every Sweet has non-negative quantity and
positive price, each exposed operation (create, update, purchase, restock,
delete) yields a store in which every Sweet still satisfies that
invariant. -/
theorem services_preserve_invariant (s : Store) (h : GoodStore s) :
    (∀ d newId now, GoodStore (SweetService.createSweet s d newId now).2) ∧
    (∀ id d, GoodStore (SweetService.updateSweet s id d).2) ∧
    (∀ id, GoodStore (InventoryService.purchaseSweet s id).2) ∧
    (∀ id amount, GoodStore (InventoryService.restockSweet s id amount).2) ∧
    (∀ id, GoodStore (SweetService.deleteSweet s id).2) :=
  ⟨fun d newId now => createSweet_good s h d newId now,
   fun id d => updateSweet_good s h id d,
   fun id => purchaseSweet_good s h id,
   fun id amount => restockSweet_good s h id amount,
   fun id => deleteSweet_good s h id⟩

theorem services_preserve_invariant_witness :
    GoodStore [truffle] ∧
    ((∀ d newId now, GoodStore (SweetService.createSweet [truffle] d newId now).2) ∧
     (∀ id d, GoodStore (SweetService.updateSweet [truffle] id d).2) ∧
     (∀ id, GoodStore (InventoryService.purchaseSweet [truffle] id).2) ∧
     (∀ id amount, GoodStore (InventoryService.restockSweet [truffle] id amount).2) ∧
     (∀ id, GoodStore (SweetService.deleteSweet [truffle] id).2)) :=
  ⟨by decide, services_preserve_invariant [truffle] (by decide)⟩

/-- C9: the repository decrement is unguarded — for any stored Sweet it
returns and stores quantity one less than the current value, with no
stock check, so quantity 0 becomes -1; under the purchase pre-check
(quantity > 0) the purchased result can never be negative. -/
theorem decrement_unguarded (s : Store) (id : String) (sw : Sweet)
    (h : SweetRepository.findById s id = some sw) :
    (SweetRepository.decrementQuantity s id).1 =
      Except.ok { sw with quantity := sw.quantity - 1 } ∧
    SweetRepository.findById (SweetRepository.decrementQuantity s id).2 id =
      some { sw with quantity := sw.quantity - 1 } ∧
    (sw.quantity = 0 →
      ({ sw with quantity := sw.quantity - 1 } : Sweet).quantity = -1) ∧
    (0 < sw.quantity →
      ∀ r, (InventoryService.purchaseSweet s id).1 = Except.ok r →
        0 ≤ r.quantity) := by
  have hde : SweetRepository.decrementQuantity s id =
      (Except.ok { sw with quantity := sw.quantity - 1 },
        s.map (fun x =>
          if x.id == id then { sw with quantity := sw.quantity - 1 } else x)) := by
    unfold SweetRepository.decrementQuantity
    rw [h]
  refine ⟨by rw [hde], ?_, ?_, ?_⟩
  · rw [hde]
    exact findById_map_set _ h rfl
  · intro h0
    dsimp only
    omega
  · intro hq r hr
    unfold InventoryService.purchaseSweet at hr
    rw [h] at hr
    dsimp only at hr
    rw [if_neg (by omega)] at hr
    rw [hde] at hr
    dsimp only at hr
    injection hr with hr
    rw [← hr]
    dsimp only
    omega

theorem decrement_unguarded_witness :
    SweetRepository.findById [staleCandy] "s0" = some staleCandy ∧
    ((SweetRepository.decrementQuantity [staleCandy] "s0").1 =
      Except.ok { staleCandy with quantity := staleCandy.quantity - 1 } ∧
    SweetRepository.findById
        (SweetRepository.decrementQuantity [staleCandy] "s0").2 "s0" =
      some { staleCandy with quantity := staleCandy.quantity - 1 } ∧
    (staleCandy.quantity = 0 →
      ({ staleCandy with quantity := staleCandy.quantity - 1 } : Sweet).quantity =
        -1) ∧
    (0 < staleCandy.quantity →
      ∀ r, (InventoryService.purchaseSweet [staleCandy] "s0").1 = Except.ok r →
        0 ≤ r.quantity)) :=
  ⟨by decide, decrement_unguarded [staleCandy] "s0" staleCandy (by decide)⟩

/-- C6 counterexample: `"a@b."` has an `'@'`, no whitespace, and a dot in
the domain part, so the claimed shape accepts it; the code's regex
requires a character after the dot and rejects it with the invalid-email
error (even with a long password). -/
theorem register_email_shape_cex :
    claimEmailShape "a@b." = true ∧
    (AuthService.registerUser (fun p => p) "u1" [] "a@b." "password123").1 =
      Except.error "Invalid email format" := by
  constructor
  · decide
  · decide

/-- C6 (amended): registration fails with the invalid-email error exactly
when the email does not decompose as `local@domain`, where `local` is
non-empty and free of whitespace and `'@'`, and `domain` is free of
whitespace and `'@'` and contains a dot that is neither its first nor its
last character. -/
theorem register_invalid_email_iff (hash : String → String) (newId : String)
    (s : UserStore) (email pw : String) :
    (AuthService.registerUser hash newId s email pw).1 =
      Except.error "Invalid email format" ↔ ¬ emailShapeOk email := by
  unfold AuthService.registerUser
  rcases Bool.eq_false_or_eq_true (AuthService.isValidEmail email) with hv | hv
  · rw [hv]
    simp only [Bool.not_true]
    rw [if_neg Bool.false_ne_true]
    constructor
    · intro hl
      exfalso
      by_cases hp : pw.length < 8
      · rw [if_pos hp] at hl
        dsimp only at hl
        exact absurd hl (by decide)
      · rw [if_neg hp] at hl
        cases hfe : UserRepository.findByEmail s email with
        | some u =>
          rw [hfe] at hl
          dsimp only at hl
          exact absurd hl (by decide)
        | none =>
          rw [hfe] at hl
          dsimp only at hl
          exact Except.noConfusion hl
    · intro hn
      exact absurd ((isValidEmail_iff email).mp hv) hn
  · rw [hv]
    simp only [Bool.not_false, if_true]
    constructor
    · intro _ hshape
      rw [(isValidEmail_iff email).mpr hshape] at hv
      exact absurd hv (by decide)
    · intro _
      trivial

/-- C7: a login with an unregistered email and a login with a registered
email but failing password comparison produce one and the same error
value, `Invalid credentials` — textually and categorically identical. -/
theorem login_uniform_failure (cmp : String → String → Bool)
    (genToken : String → String → String) (s : UserStore) (email pw : String)
    (h : UserRepository.findByEmail s email = none ∨
      ∃ u, UserRepository.findByEmail s email = some u ∧
        cmp pw u.passwordHash = false) :
    AuthService.loginUser cmp genToken s email pw =
      Except.error "Invalid credentials" := by
  unfold AuthService.loginUser
  rcases h with h | ⟨u, hu, hc⟩
  · rw [h]
  · rw [hu]
    dsimp only
    rw [if_neg (fun hh => absurd (hc.symm.trans hh) (by decide))]

theorem login_uniform_failure_witness :
    (UserRepository.findByEmail [] "a@b.cd" = none ∨
      ∃ u, UserRepository.findByEmail [] "a@b.cd" = some u ∧
        (fun a b : String => a == b) "pw" u.passwordHash = false) ∧
    AuthService.loginUser (fun a b : String => a == b) (fun a b => a ++ b) []
        "a@b.cd" "pw" =
      Except.error "Invalid credentials" :=
  ⟨Or.inl rfl,
   login_uniform_failure (fun a b : String => a == b) (fun a b => a ++ b) []
     "a@b.cd" "pw" (Or.inl rfl)⟩

/-- C8 counterexample: a registration with a malformed email and a
1-character password fails with the invalid-email error, not the
weak-password one, because the email check runs first. -/
theorem register_weak_password_cex :
    ("x".length < 8) ∧
    (AuthService.registerUser (fun p => p) "u1" [] "bad" "x").1 =
      Except.error "Invalid email format" ∧
    (AuthService.registerUser (fun p => p) "u1" [] "bad" "x").1 ≠
      Except.error "Password must be at least 8 characters long" := by
  refine ⟨by decide, by decide, by decide⟩

/-- C8 (amended): a registration with a well-formed email and a password
shorter than 8 characters fails with the weak-password error and leaves
the credential store exactly as it was — no record is persisted. -/
theorem register_weak_password (hash : String → String) (newId : String)
    (s : UserStore) (email pw : String)
    (he : AuthService.isValidEmail email = true) (hp : pw.length < 8) :
    AuthService.registerUser hash newId s email pw =
      (Except.error "Password must be at least 8 characters long", s) := by
  unfold AuthService.registerUser
  rw [he]
  simp only [Bool.not_true]
  rw [if_neg Bool.false_ne_true]
  rw [if_pos hp]

theorem register_weak_password_witness :
    AuthService.isValidEmail "a@b.cd" = true ∧
    ("short".length < 8) ∧
    AuthService.registerUser (fun p => p) "u1" [] "a@b.cd" "short" =
      (Except.error "Password must be at least 8 characters long", []) :=
  ⟨by decide, by decide,
   register_weak_password (fun p => p) "u1" [] "a@b.cd" "short" (by decide)
     (by decide)⟩
